import Mathlib

/-!
# Verification development for `include/io.h` (namespace `Io`)

A shallow embedding of the event batch (`Io::FdSet`), of the reactor
(`Io::Service`) and of the reactor pool (`Io::ServiceGroup`), followed by the
properties established about them.

Conventions of the embedding:

* `std::vector<T>` is a `List T`; `push_back` appends at the end.
* A `const` member function is a pure function of the object; a member
  function that is not `const` returns the object next to its result.
* `std::vector::at` throws, so it returns an `Except`; `operator[]` outside the
  bounds is undefined behaviour, so it returns an `Option`.
* Calls made on collaborators (rejection callbacks, the notifier) are recorded
  as explicit data so that their number and order can be stated.
-/

namespace Polling

/-- Modelled from the spec: the enumeration `Polling::NotifyOn` of `os.h`, which
is not among the sources. The spec describes the interest flags as a bitset over
Readable, Writable, Hangup and Shutdown. -/
inductive NotifyOn where
  | None
  | Read
  | Write
  | Hangup
  | Shutdown
  deriving DecidableEq, Repr

/-- Modelled from the spec: the underlying value of a `NotifyOn` enumerator of
`os.h`. A bitset gives every member a bit of its own: `Read` is bit 0, `Write`
bit 1, `Hangup` bit 2, `Shutdown` bit 3, and `None` is the empty mask. -/
def NotifyOn.toNat : NotifyOn → Nat
  | .None => 0
  | .Read => 1
  | .Write => 1 <<< 1
  | .Hangup => 1 <<< 2
  | .Shutdown => 1 <<< 3

/-- Position of the bit that stands for a flag in the bitset (`None` has no bit). -/
def NotifyOn.bit : NotifyOn → Option Nat
  | .None => none
  | .Read => some 0
  | .Write => some 1
  | .Hangup => some 2
  | .Shutdown => some 3

/-- Modelled from the spec: the class template `Flags<T>` of `flags.h`, which is
not among the sources: a bitset held in one unsigned integer. -/
structure Flags where
  val : Nat
  deriving DecidableEq, Repr

/-- Modelled from the spec: `Flags<T>::hasFlag` of `flags.h`, the bitset
membership test: the mask of the flag is and-ed with the stored value and the
result is converted to `bool`. -/
def Flags.hasFlag (f : Flags) (flag : NotifyOn) : Bool :=
  (f.val &&& flag.toNat) != 0

/-- Modelled from the spec: adding a member to the bitset (`Flags<T>::setFlag`). -/
def Flags.setFlag (f : Flags) (flag : NotifyOn) : Flags :=
  ⟨f.val ||| flag.toNat⟩

/-- Modelled from the spec: removing a member from the bitset: the bits of the
mask that are present in the value are flipped off. -/
def Flags.clearFlag (f : Flags) (flag : NotifyOn) : Flags :=
  ⟨f.val ^^^ (f.val &&& flag.toNat)⟩

/-- The observed flags contain `flag`: the bit of `flag` is set in the bitset. -/
def Flags.Contains (f : Flags) (flag : NotifyOn) : Prop :=
  ∃ i, flag.bit = some i ∧ f.val.testBit i = true

/-- Descriptor `Fd` (`typedef int Fd`). -/
abbrev Fd := Int

/-- Correlation tag `Polling::Tag`: a wrapper around a 64-bit unsigned value. -/
structure Tag where
  value : Nat
  deriving DecidableEq, Repr

/-- Modelled from the spec: `Polling::Event` of `os.h`, which is not among the
sources: a readiness event is made of the observed flags, the descriptor and the
tag. -/
structure Event where
  flags : Flags
  fd : Fd
  tag : Tag
  deriving DecidableEq, Repr

end Polling

namespace Io

open Polling

/-- Out-of-range exception thrown by `std::vector::at`. -/
inductive Exception where
  | out_of_range
  deriving DecidableEq, Repr

/-- Struct `FdSet::Entry`, io.h lines 32-49: derives privately from `Polling::Event`
and adds no field. -/
structure Entry where
  toEvent : Polling.Event
  deriving DecidableEq, Repr

/-- Constructor `Entry(Polling::Event&& event) : Polling::Event(std::move(event))`. -/
def Entry.ofEvent (event : Polling.Event) : Entry :=
  ⟨event⟩

/-- Member `bool isReadable() const`. -/
def Entry.isReadable (e : Entry) : Bool :=
  e.toEvent.flags.hasFlag NotifyOn.Read

/-- Member `bool isWritable() const`. -/
def Entry.isWritable (e : Entry) : Bool :=
  e.toEvent.flags.hasFlag NotifyOn.Write

/-- Member `bool isHangup() const`. -/
def Entry.isHangup (e : Entry) : Bool :=
  e.toEvent.flags.hasFlag NotifyOn.Hangup

/-- Member `Fd getFd() const`. -/
def Entry.getFd (e : Entry) : Fd :=
  e.toEvent.fd

/-- Member `Polling::Tag getTag() const`. -/
def Entry.getTag (e : Entry) : Tag :=
  e.toEvent.tag

/-- The entry `e` with its observed flags replaced by `flags`; descriptor and tag
are kept. Used to state how a predicate reacts to a change of the flags. -/
def Entry.withFlags (e : Entry) (flags : Flags) : Entry :=
  ⟨⟨flags, e.toEvent.fd, e.toEvent.tag⟩⟩

/-- Class `FdSet`, io.h lines 28-92: its only data member is
`std::vector<Entry> events_`. -/
structure FdSet where
  events_ : List Entry
  deriving DecidableEq, Repr

/-- Statement `events_.push_back(std::move(event))` inside the constructor: the event is
converted to an `Entry` and appended at the end. -/
def FdSet.push_back (s : FdSet) (event : Polling.Event) : FdSet :=
  ⟨s.events_ ++ [Entry.ofEvent event]⟩

/-- Constructor `FdSet(std::vector<Polling::Event>&& events)`, io.h lines 83-89: starts from
the empty vector (`reserve` changes the capacity only) and pushes the events in
the order of the range-for loop. -/
def FdSet.ofEvents (events : List Polling.Event) : FdSet :=
  events.foldl FdSet.push_back ⟨[]⟩

/-- Member `size_t size() const`. -/
def FdSet.size (s : FdSet) : Nat :=
  s.events_.length

/-- Member `const Entry& at(size_t index) const`: `std::vector::at` throws
`std::out_of_range` when `index >= size()`. -/
def FdSet.at (s : FdSet) (index : Nat) : Except Exception Entry :=
  match s.events_.get? index with
  | some e => .ok e
  | none => .error Exception.out_of_range

/-- Member `const Entry& operator[](size_t index) const`: unchecked access, `none`
stands for the undefined behaviour of an index outside the bounds. -/
def FdSet.index (s : FdSet) (index : Nat) : Option Entry :=
  s.events_.get? index

/-- Iterator into `events_`, given by its position. -/
structure Iterator where
  pos : Nat
  deriving DecidableEq, Repr

/-- Member `const_iterator begin() const`. -/
def FdSet.cbegin (_s : FdSet) : Iterator :=
  ⟨0⟩

/-- Member `const_iterator end() const`. -/
def FdSet.cend (s : FdSet) : Iterator :=
  ⟨s.events_.length⟩

/-- Member `iterator begin()`: not `const`, so the object is returned with the result. -/
def FdSet.begin (s : FdSet) : Iterator × FdSet :=
  (⟨0⟩, s)

/-- Member `iterator end()`: not `const`, so the object is returned with the result. -/
def FdSet.end_ (s : FdSet) : Iterator × FdSet :=
  (⟨s.events_.length⟩, s)

/-- Public operations of `FdSet` and of its entries; an operation of an entry
names the position of the entry it is called on. -/
inductive FdSetOp where
  | size
  | at (index : Nat)
  | index (index : Nat)
  | begin
  | end_
  | cbegin
  | cend
  | isReadable (entry : Nat)
  | isWritable (entry : Nat)
  | isHangup (entry : Nat)
  | getFd (entry : Nat)
  | getTag (entry : Nat)
  deriving DecidableEq, Repr

/-- Value produced by a public operation. -/
inductive OpResult where
  | count (n : Nat)
  | entry (e : Except Exception Entry)
  | ref (e : Option Entry)
  | iter (it : Iterator)
  | flag (b : Option Bool)
  | fd (fd : Option Fd)
  | tag (t : Option Tag)
  deriving Repr

/-- Runs one public operation on a batch: the result and the batch afterwards. -/
def FdSet.perform (s : FdSet) : FdSetOp → OpResult × FdSet
  | .size => (.count s.size, s)
  | .at i => (.entry (s.at i), s)
  | .index i => (.ref (s.index i), s)
  | .begin => (.iter s.begin.1, s.begin.2)
  | .end_ => (.iter s.end_.1, s.end_.2)
  | .cbegin => (.iter s.cbegin, s)
  | .cend => (.iter s.cend, s)
  | .isReadable i => (.flag ((s.index i).map Entry.isReadable), s)
  | .isWritable i => (.flag ((s.index i).map Entry.isWritable), s)
  | .isHangup i => (.flag ((s.index i).map Entry.isHangup), s)
  | .getFd i => (.fd ((s.index i).map Entry.getFd), s)
  | .getTag i => (.tag ((s.index i).map Entry.getTag), s)

/-- Runs a sequence of public operations, threading the batch through them. -/
def FdSet.performAll (s : FdSet) : List FdSetOp → List OpResult × FdSet
  | [] => ([], s)
  | op :: ops =>
    let r := s.perform op
    let rest := r.2.performAll ops
    (r.1 :: rest.1, rest.2)

end Io

namespace Async

/-- Modelled from the spec: the errors a promise of the reactor is rejected
with (section 7 of the spec); the error type of `async.h` is not among the
sources. -/
inductive Error where
  | Superseded
  | Cancelled
  | TimerError
  deriving DecidableEq, Repr

/-- Modelled from the spec: state of the shared core of a promise, a
single-resolution asynchronous result. -/
inductive State where
  | Pending
  | Fulfilled
  | Rejected (error : Error)
  deriving DecidableEq, Repr

/-- Resolver `Async::Resolver`: a handle on the core of one promise. -/
structure Resolver where
  core : Nat
  deriving DecidableEq, Repr

/-- Rejection callback `Async::Rejection`: a handle on the core of one promise. -/
structure Rejection where
  core : Nat
  deriving DecidableEq, Repr

/-- Holder `Async::Holder(resolve, reject)`: the resolver and the rejection of
one promise, kept together. -/
structure Holder where
  resolve : Resolver
  reject : Rejection
  deriving DecidableEq, Repr

/-- Promise `Async::Promise<T>`: the caller side of a core. -/
structure Promise where
  core : Nat
  deriving DecidableEq, Repr

/-- All promise cores created so far, a core being named by its position. -/
abbrev Store := List State

/-- State of the core behind a promise. -/
def Promise.state (p : Promise) (store : Store) : Option State :=
  store.get? p.core

/-- Holder made of the resolver and the rejection of the promise `p`. -/
def Promise.holder (p : Promise) : Holder :=
  ⟨⟨p.core⟩, ⟨p.core⟩⟩

/-- Modelled from the spec: first half of the constructor
`Async::Promise<T>(func)` of `async.h`, which is not among the sources: a new
core is created in the pending state, with its resolver and its rejection. The
constructor then runs `func(resolver, rejection)` before it returns: the spec
has `load()` post its request while it is called. -/
def Promise.create (store : Store) : Promise × Resolver × Rejection × Store :=
  (⟨store.length⟩, ⟨store.length⟩, ⟨store.length⟩, store ++ [State.Pending])

/-- Modelled from the spec: calling a rejection with an error: a pending core
becomes rejected with that error, a core already resolved is left alone (single
resolution). -/
def Rejection.call (r : Rejection) (error : Error) (store : Store) : Store :=
  if store.get? r.core = some State.Pending then store.set r.core (State.Rejected error)
  else store

end Async

namespace Chrono

/-- Tick period `std::ratio<num, den>` of a duration type, in seconds. -/
structure Period where
  num : Nat
  den : Nat
  deriving DecidableEq, Repr

/-- Period `std::nano` of `std::chrono::nanoseconds`. -/
def Period.nano : Period := ⟨1, 1000000000⟩

/-- Period `std::micro` of `std::chrono::microseconds`. -/
def Period.micro : Period := ⟨1, 1000000⟩

/-- Period `std::milli` of `std::chrono::milliseconds`. -/
def Period.milli : Period := ⟨1, 1000⟩

/-- Period `std::ratio<1>` of `std::chrono::seconds`. -/
def Period.seconds : Period := ⟨1, 1⟩

/-- Period `std::ratio<60>` of `std::chrono::minutes`. -/
def Period.minutes : Period := ⟨60, 1⟩

/-- Period `std::ratio<3600>` of `std::chrono::hours`. -/
def Period.hours : Period := ⟨3600, 1⟩

/-- Conversion factor `std::ratio_divide<Period, std::milli>`, in lowest terms. -/
def Period.toMilli (p : Period) : Period :=
  ⟨p.num * 1000 / Nat.gcd (p.num * 1000) p.den, p.den / Nat.gcd (p.num * 1000) p.den⟩

/-- Smallest value of the 64-bit signed representation of a duration. -/
def INT64_MIN : Int := -(2 ^ 63)

/-- Largest value of the 64-bit signed representation of a duration. -/
def INT64_MAX : Int := 2 ^ 63 - 1

/-- The integer fits the 64-bit signed representation. -/
def inInt64 (x : Int) : Prop :=
  INT64_MIN ≤ x ∧ x ≤ INT64_MAX

instance (x : Int) : Decidable (inInt64 x) := by
  unfold inInt64; infer_instance

/-- Conversion `std::chrono::duration_cast<std::chrono::milliseconds>(d)` of a
duration of `count` ticks of period `p`, held in a 64-bit signed integer. With
`CF = ratio_divide<Period, milli>` the standard gives four cases: the count
itself when `CF` is 1, `count * CF::num` when only the denominator is 1,
`count / CF::den` when only the numerator is 1, and `count * CF::num / CF::den`
otherwise, the division truncating toward zero. `none` stands for a count that
the representation cannot hold and for the undefined behaviour of a signed
overflow in the multiplication. -/
def duration_cast_ms (p : Period) (count : Int) : Option Int :=
  if ¬ inInt64 count then none
  else if p.toMilli.num = 1 ∧ p.toMilli.den = 1 then some count
  else if p.toMilli.den = 1 then
    if inInt64 (count * p.toMilli.num) then some (count * p.toMilli.num) else none
  else if p.toMilli.num = 1 then some (count.tdiv p.toMilli.den)
  else if inInt64 (count * p.toMilli.num) then
    some ((count * p.toMilli.num).tdiv p.toMilli.den)
  else none

/-- The duration of `ms` milliseconds is no shorter than `count` ticks of
period `p`: both sides are compared exactly, as multiples of `1/(1000 * den)`
seconds. -/
def msNotLess (ms : Int) (p : Period) (count : Int) : Prop :=
  count * (p.num * 1000) ≤ ms * p.den

instance (ms : Int) (p : Period) (count : Int) : Decidable (msNotLess ms p count) := by
  unfold msNotLess; infer_instance

end Chrono

namespace Io

open Polling Async Chrono

/-- Modelled from the spec: the notifier `NotifyFd` of `os.h`, which is not
among the sources: a descriptor used to wake the poller, with the number of
signals sent and not yet consumed by the loop. -/
structure NotifyFd where
  event_fd : Fd
  signals : Nat
  deriving DecidableEq, Repr

/-- Modelled from the spec: `NotifyFd::notify()`: one more signal is pending. -/
def NotifyFd.notify (n : NotifyFd) : NotifyFd :=
  { n with signals := n.signals + 1 }

/-- Struct `Service::Timer`, io.h lines 134-146: `value` is a count of milliseconds. -/
structure Timer where
  value : Int
  resolve : Resolver
  reject : Rejection
  deriving DecidableEq, Repr

/-- Data members of `class Service`, io.h lines 98 and 153-161. The mailbox is
given by its queued messages, the thread and the handler by their identity, the
poller by the descriptors registered with it. -/
structure Service where
  mailbox : List Nat
  timerFd : Fd
  thisId : Nat
  handler_ : Option Nat
  load_ : Option Holder
  timer : Option Timer
  notifier : NotifyFd
  poller : List Fd
  deriving DecidableEq, Repr

/-- Holders of load requests that the reactor still keeps, to be resolved when
the loop services the notifier. -/
def Service.pendingLoads (s : Service) : List Holder :=
  s.load_.toList

/-- Timers that the reactor holds pending. -/
def Service.pendingTimers (s : Service) : List Timer :=
  s.timer.toList

/-- Outcome of `Service::load()`: the promise returned to the caller, the
reactor and the promise cores afterwards. -/
structure LoadResult where
  promise : Promise
  service : Service
  store : Store
  deriving DecidableEq, Repr

/-- Member `Async::Promise<rusage> load()`, io.h lines 117-122: the promise is
constructed, and the function given to its constructor stores
`Some(Async::Holder(resolve, reject))` in `load_`, then calls
`notifier.notify()`. -/
def Service.load (s : Service) (store : Store) : LoadResult :=
  match Promise.create store with
  | (promise, resolve, reject, store1) =>
    let s1 := { s with load_ := some (Holder.mk resolve reject) }
    let s2 := { s1 with notifier := s1.notifier.notify }
    ⟨promise, s2, store1⟩

/-- Member `template<typename Duration> void armTimer(Duration timeout, resolve,
reject)`, io.h lines 124-129: the timeout, `timeout` ticks of period `p`, is
converted with `duration_cast<milliseconds>` and handed to `armTimerMs` with
the two callbacks. `armTimerMs` is only declared in the header, so it is an
argument here. -/
def Service.armTimer {ρ : Type} (armTimerMs : Int → Resolver → Rejection → ρ)
    (p : Period) (timeout : Int) (resolve : Resolver) (reject : Rejection) : Option ρ :=
  match duration_cast_ms p timeout with
  | some value => some (armTimerMs value resolve reject)
  | none => none

/-- Calls made on collaborators while a timer is armed, in the order they are
made; `installed` marks the moment the new timer becomes the pending one. -/
inductive Call where
  | reject (callback : Rejection) (error : Error)
  | installed (timer : Timer)
  deriving DecidableEq, Repr

/-- Outcome of `Service::armTimerMs`: the error reported to the caller if any,
the reactor and the promise cores afterwards, and the calls made. -/
structure ArmResult where
  error : Option Error
  service : Service
  store : Store
  calls : List Call
  deriving DecidableEq, Repr

/-- Modelled from the spec: `Service::armTimerMs`, declared at io.h line 149 and
defined outside the sources. Per the spec, arming fails with `TimerError`,
reported to the caller, when the underlying timer resource cannot be configured
(`configured` is the outcome of that configuration); otherwise arming replaces
any pending timer: the outstanding one is rejected with `Superseded` before the
new one takes effect, and the new one becomes the single pending timer. -/
def Service.armTimerMs (configured : Bool) (s : Service) (store : Store)
    (value : Int) (resolve : Resolver) (reject : Rejection) : ArmResult :=
  if configured then
    match s.timer with
    | some old =>
      ⟨none, { s with timer := some ⟨value, resolve, reject⟩ },
        old.reject.call Error.Superseded store,
        [Call.reject old.reject Error.Superseded, Call.installed ⟨value, resolve, reject⟩]⟩
    | none =>
      ⟨none, { s with timer := some ⟨value, resolve, reject⟩ }, store,
        [Call.installed ⟨value, resolve, reject⟩]⟩
  else
    ⟨some Error.TimerError, s, store, []⟩

/-- Shared pointer `std::shared_ptr<Service>`, given by the object it points to. -/
structure ServicePtr where
  addr : Nat
  deriving DecidableEq, Repr

/-- Class `ServiceGroup::Worker`, io.h lines 186-204: an owned thread, if started, and
the reactor. -/
structure Worker where
  thread_ : Option Nat
  service_ : ServicePtr
  deriving DecidableEq, Repr

/-- Member `std::shared_ptr<Service> service() const` of `Worker`, io.h line 200. -/
def Worker.service (w : Worker) : ServicePtr :=
  w.service_

/-- Class `ServiceGroup`, io.h lines 164-206: its only data member is
`std::vector<std::unique_ptr<Worker>> workers_`. -/
structure ServiceGroup where
  workers_ : List Worker
  deriving DecidableEq, Repr

/-- Member `size_t size() const`, io.h lines 177-179. -/
def ServiceGroup.size (g : ServiceGroup) : Nat :=
  g.workers_.length

/-- Member `bool empty() const`, io.h lines 181-183. -/
def ServiceGroup.empty (g : ServiceGroup) : Bool :=
  g.workers_.isEmpty

/-- Modelled from the spec: the routing function behind
`ServiceGroup::service(Fd)`: a deterministic, stateless mapping from descriptor
to pool index, hashing the descriptor value modulo pool size. The remainder by
a pool size of zero is undefined, hence `none`. -/
def ServiceGroup.route (hash : Fd → Nat) (fd : Fd) (poolSize : Nat) : Option Nat :=
  if poolSize = 0 then none else some (hash fd % poolSize)

/-- Modelled from the spec: `std::shared_ptr<Service> service(Fd fd) const`,
declared at io.h line 173 and defined outside the sources: the reactor of the
worker at the index the routing function gives for the size of the pool. -/
def ServiceGroup.service (hash : Fd → Nat) (g : ServiceGroup) (fd : Fd) : Option ServicePtr :=
  match ServiceGroup.route hash fd g.size with
  | some i => (g.workers_.get? i).map Worker.service
  | none => none

/-- Member functions of `ServiceGroup` declared `const` in the header that the
properties below are about. -/
inductive GroupOp where
  | size
  | empty
  | service (fd : Fd)
  deriving DecidableEq, Repr

/-- Value produced by a `const` member function of `ServiceGroup`. -/
inductive GroupResult where
  | count (n : Nat)
  | flag (b : Bool)
  | reactor (r : Option ServicePtr)
  deriving DecidableEq, Repr

/-- Runs one `const` member function on a pool: the result and the pool
afterwards. -/
def ServiceGroup.perform (hash : Fd → Nat) (g : ServiceGroup) :
    GroupOp → GroupResult × ServiceGroup
  | .size => (.count g.size, g)
  | .empty => (.flag g.empty, g)
  | .service fd => (.reactor (g.service hash fd), g)

end Io

/-! ## Properties -/

namespace Polling

theorem NotifyOn.toNat_of_bit {flag : NotifyOn} {i : Nat} (h : flag.bit = some i) :
    flag.toNat = 2 ^ i := by
  cases flag <;> simp [NotifyOn.bit] at h <;> subst h <;> rfl

theorem NotifyOn.testBit_toNat_of_ne {flag other : NotifyOn} {i : Nat}
    (h : flag.bit = some i) (hne : other ≠ flag) : other.toNat.testBit i = false := by
  cases flag <;> simp [NotifyOn.bit] at h <;> subst h <;> cases other <;>
    first
      | exact absurd rfl hne
      | decide

theorem and_two_pow_ne_zero (v i : Nat) : ((v &&& 2 ^ i) != 0) = v.testBit i := by
  rw [Nat.and_two_pow]
  cases h : v.testBit i <;> simp

theorem Flags.hasFlag_eq_testBit (f : Flags) {flag : NotifyOn} {i : Nat}
    (h : flag.bit = some i) : f.hasFlag flag = f.val.testBit i := by
  unfold Flags.hasFlag
  rw [NotifyOn.toNat_of_bit h, and_two_pow_ne_zero]

theorem Flags.hasFlag_iff_contains (f : Flags) (flag : NotifyOn) :
    f.hasFlag flag = true ↔ f.Contains flag := by
  constructor
  · intro hf
    cases hb : flag.bit with
    | none =>
      cases flag <;> simp [NotifyOn.bit] at hb
      simp [Flags.hasFlag, NotifyOn.toNat] at hf
    | some i => exact ⟨i, hb, by rw [← Flags.hasFlag_eq_testBit f hb]; exact hf⟩
  · rintro ⟨i, hb, ht⟩
    rw [Flags.hasFlag_eq_testBit f hb]; exact ht

theorem Flags.hasFlag_setFlag_of_ne (f : Flags) {flag other : NotifyOn} (hne : other ≠ flag) :
    (f.setFlag other).hasFlag flag = f.hasFlag flag := by
  cases hb : flag.bit with
  | none =>
    cases flag <;> simp [NotifyOn.bit] at hb
    simp [Flags.hasFlag, NotifyOn.toNat]
  | some i =>
    rw [Flags.hasFlag_eq_testBit _ hb, Flags.hasFlag_eq_testBit _ hb]
    simp [Flags.setFlag, Nat.testBit_or, NotifyOn.testBit_toNat_of_ne hb hne]

theorem Flags.hasFlag_clearFlag_of_ne (f : Flags) {flag other : NotifyOn} (hne : other ≠ flag) :
    (f.clearFlag other).hasFlag flag = f.hasFlag flag := by
  cases hb : flag.bit with
  | none =>
    cases flag <;> simp [NotifyOn.bit] at hb
    simp [Flags.hasFlag, NotifyOn.toNat]
  | some i =>
    rw [Flags.hasFlag_eq_testBit _ hb, Flags.hasFlag_eq_testBit _ hb]
    simp [Flags.clearFlag, Nat.testBit_xor, Nat.testBit_and, NotifyOn.testBit_toNat_of_ne hb hne]

end Polling

namespace Io

open Polling

theorem FdSet.foldl_push_back (events : List Polling.Event) (acc : FdSet) :
    (events.foldl FdSet.push_back acc).events_ = acc.events_ ++ events.map Entry.ofEvent := by
  induction events generalizing acc with
  | nil => simp
  | cons e es ih => simp [List.foldl_cons, ih, FdSet.push_back]

theorem FdSet.ofEvents_events (events : List Polling.Event) :
    (FdSet.ofEvents events).events_ = events.map Entry.ofEvent := by
  simp [FdSet.ofEvents, FdSet.foldl_push_back]

/-- C1: the batch built from a sequence of poller events has as many entries as
there are events, and the entry at every index below the size reports the
descriptor and the tag of the poller event at the same index (through `at` and
through `operator[]`). -/
theorem FdSet.ofEvents_faithful (events : List Polling.Event) :
    (FdSet.ofEvents events).size = events.length ∧
    ∀ (i : Nat), i < (FdSet.ofEvents events).size →
      ∃ (hi : i < events.length) (e : Entry),
        (FdSet.ofEvents events).at i = .ok e ∧
        (FdSet.ofEvents events).index i = some e ∧
        e.getFd = (events.get ⟨i, hi⟩).fd ∧ e.getTag = (events.get ⟨i, hi⟩).tag := by
  have hsz : (FdSet.ofEvents events).size = events.length := by
    simp [FdSet.size, FdSet.ofEvents_events]
  refine ⟨hsz, ?_⟩
  intro i h
  have hi : i < events.length := hsz ▸ h
  refine ⟨hi, Entry.ofEvent (events.get ⟨i, hi⟩), ?_, ?_, rfl, rfl⟩
  · simp [FdSet.at, FdSet.ofEvents_events, List.get?_eq_getElem?, List.getElem?_map,
      List.getElem?_eq_getElem hi]
  · simp [FdSet.index, FdSet.ofEvents_events, List.get?_eq_getElem?, List.getElem?_map,
      List.getElem?_eq_getElem hi]

theorem FdSet.ofEvents_faithful_witness :
    ∃ (hi : 1 < [(⟨⟨1⟩, 7, ⟨40⟩⟩ : Polling.Event), ⟨⟨6⟩, 9, ⟨41⟩⟩, ⟨⟨2⟩, 7, ⟨42⟩⟩].length)
      (e : Entry),
      (FdSet.ofEvents [⟨⟨1⟩, 7, ⟨40⟩⟩, ⟨⟨6⟩, 9, ⟨41⟩⟩, ⟨⟨2⟩, 7, ⟨42⟩⟩]).at 1 = .ok e ∧
      (FdSet.ofEvents [⟨⟨1⟩, 7, ⟨40⟩⟩, ⟨⟨6⟩, 9, ⟨41⟩⟩, ⟨⟨2⟩, 7, ⟨42⟩⟩]).index 1 = some e ∧
      e.getFd = ([(⟨⟨1⟩, 7, ⟨40⟩⟩ : Polling.Event), ⟨⟨6⟩, 9, ⟨41⟩⟩, ⟨⟨2⟩, 7, ⟨42⟩⟩].get ⟨1, hi⟩).fd ∧
      e.getTag = ([(⟨⟨1⟩, 7, ⟨40⟩⟩ : Polling.Event), ⟨⟨6⟩, 9, ⟨41⟩⟩, ⟨⟨2⟩, 7, ⟨42⟩⟩].get ⟨1, hi⟩).tag :=
  (FdSet.ofEvents_faithful [⟨⟨1⟩, 7, ⟨40⟩⟩, ⟨⟨6⟩, 9, ⟨41⟩⟩, ⟨⟨2⟩, 7, ⟨42⟩⟩]).2 1 (by decide)

/-- C2: for every entry, `isReadable`, `isWritable` and `isHangup` hold exactly
when the observed flags contain Read, Write and Hangup respectively, and setting
or clearing any other flag leaves the result of each predicate as it was. -/
theorem Entry.predicates_follow_own_flag (e : Entry) :
    (e.isReadable = true ↔ e.toEvent.flags.Contains NotifyOn.Read) ∧
    (e.isWritable = true ↔ e.toEvent.flags.Contains NotifyOn.Write) ∧
    (e.isHangup = true ↔ e.toEvent.flags.Contains NotifyOn.Hangup) ∧
    (∀ other : NotifyOn, other ≠ NotifyOn.Read →
      (e.withFlags (e.toEvent.flags.setFlag other)).isReadable = e.isReadable ∧
      (e.withFlags (e.toEvent.flags.clearFlag other)).isReadable = e.isReadable) ∧
    (∀ other : NotifyOn, other ≠ NotifyOn.Write →
      (e.withFlags (e.toEvent.flags.setFlag other)).isWritable = e.isWritable ∧
      (e.withFlags (e.toEvent.flags.clearFlag other)).isWritable = e.isWritable) ∧
    (∀ other : NotifyOn, other ≠ NotifyOn.Hangup →
      (e.withFlags (e.toEvent.flags.setFlag other)).isHangup = e.isHangup ∧
      (e.withFlags (e.toEvent.flags.clearFlag other)).isHangup = e.isHangup) := by
  refine ⟨Flags.hasFlag_iff_contains _ _, Flags.hasFlag_iff_contains _ _,
    Flags.hasFlag_iff_contains _ _, ?_, ?_, ?_⟩ <;>
  · intro other hne
    exact ⟨Flags.hasFlag_setFlag_of_ne _ hne, Flags.hasFlag_clearFlag_of_ne _ hne⟩

theorem Entry.predicates_follow_own_flag_witness :
    ((Entry.ofEvent ⟨⟨5⟩, 3, ⟨9⟩⟩).withFlags
        ((Entry.ofEvent ⟨⟨5⟩, 3, ⟨9⟩⟩).toEvent.flags.setFlag NotifyOn.Write)).isReadable
      = (Entry.ofEvent ⟨⟨5⟩, 3, ⟨9⟩⟩).isReadable ∧
    ((Entry.ofEvent ⟨⟨5⟩, 3, ⟨9⟩⟩).withFlags
        ((Entry.ofEvent ⟨⟨5⟩, 3, ⟨9⟩⟩).toEvent.flags.clearFlag NotifyOn.Write)).isReadable
      = (Entry.ofEvent ⟨⟨5⟩, 3, ⟨9⟩⟩).isReadable :=
  (Entry.predicates_follow_own_flag (Entry.ofEvent ⟨⟨5⟩, 3, ⟨9⟩⟩)).2.2.2.1
    NotifyOn.Write (by decide)

theorem FdSet.perform_snd (s : FdSet) (op : FdSetOp) : (s.perform op).2 = s := by
  cases op <;> rfl

/-- C5: running any sequence of the public operations of `FdSet` and of its
entries (`size`, `at`, `operator[]`, both `begin`/`end` pairs, `isReadable`,
`isWritable`, `isHangup`, `getFd`, `getTag`) leaves the batch as it was: the
same entries, in the same order, with the same descriptor, tag and flags. -/
theorem FdSet.performAll_unchanged (s : FdSet) (ops : List FdSetOp) :
    (s.performAll ops).2 = s ∧ (s.performAll ops).2.events_ = s.events_ ∧
    (s.performAll ops).2.size = s.size := by
  have h : (s.performAll ops).2 = s := by
    induction ops generalizing s with
    | nil => rfl
    | cons op ops ih =>
      simp only [FdSet.performAll]
      rw [FdSet.perform_snd]
      exact ih s
  exact ⟨h, by rw [h], by rw [h]⟩

/-- C9: `at(index)` throws `out_of_range` exactly when `index >= size()`, and for
every index below `size()` both `at(index)` and `operator[](index)` return the
same entry. -/
theorem FdSet.at_out_of_range_iff (s : FdSet) (index : Nat) :
    (s.at index = .error Exception.out_of_range ↔ s.size ≤ index) ∧
    (index < s.size → ∃ e, s.at index = .ok e ∧ s.index index = some e) := by
  unfold FdSet.at FdSet.index FdSet.size
  constructor
  · cases h : s.events_.get? index with
    | none => simpa using List.get?_eq_none.mp h
    | some e =>
      have hlt : index < s.events_.length := by
        by_contra hc
        rw [List.get?_eq_none.mpr (Nat.le_of_not_lt hc)] at h
        cases h
      simp [Nat.not_le.mpr hlt]
  · intro hlt
    cases h : s.events_.get? index with
    | none =>
      have := List.get?_eq_none.mp h
      omega
    | some e => exact ⟨e, rfl, rfl⟩

theorem FdSet.at_out_of_range_iff_witness :
    ∃ e, (FdSet.ofEvents [⟨⟨1⟩, 7, ⟨40⟩⟩, ⟨⟨4⟩, 8, ⟨41⟩⟩]).at 1 = .ok e ∧
      (FdSet.ofEvents [⟨⟨1⟩, 7, ⟨40⟩⟩, ⟨⟨4⟩, 8, ⟨41⟩⟩]).index 1 = some e :=
  (FdSet.at_out_of_range_iff (FdSet.ofEvents [⟨⟨1⟩, 7, ⟨40⟩⟩, ⟨⟨4⟩, 8, ⟨41⟩⟩]) 1).2 (by decide)

end Io

namespace Chrono

theorem tdiv_mul_le_of_nonneg {x d : Int} (hx : 0 ≤ x) (hd : 0 < d) :
    x.tdiv d * d ≤ x ∧ x < (x.tdiv d + 1) * d := by
  rw [Int.tdiv_eq_ediv hx (le_of_lt hd)]
  exact ⟨Int.ediv_mul_le x (ne_of_gt hd), Int.lt_ediv_add_one_mul_self x hd⟩

theorem le_tdiv_mul_of_nonpos {x d : Int} (hx : x ≤ 0) (hd : 0 < d) :
    x ≤ x.tdiv d * d := by
  have h := tdiv_mul_le_of_nonneg (x := -x) (by omega) hd
  rw [Int.neg_tdiv] at h
  nlinarith [h.1]

theorem Period.toMilli_num_mul (p : Period) :
    p.toMilli.num * Nat.gcd (p.num * 1000) p.den = p.num * 1000 :=
  Nat.div_mul_cancel (Nat.gcd_dvd_left _ _)

theorem Period.toMilli_den_mul (p : Period) :
    p.toMilli.den * Nat.gcd (p.num * 1000) p.den = p.den :=
  Nat.div_mul_cancel (Nat.gcd_dvd_right _ _)

theorem Period.toMilli_den_pos (p : Period) (hden : 0 < p.den) : 0 < p.toMilli.den := by
  have h := Period.toMilli_den_mul p
  rcases Nat.eq_zero_or_pos p.toMilli.den with h0 | h0
  · rw [h0] at h; omega
  · exact h0

theorem duration_cast_ms_eq (p : Period) (count : Int) (hin : inInt64 count)
    (hmul : inInt64 (count * p.toMilli.num)) :
    duration_cast_ms p count = some ((count * p.toMilli.num).tdiv p.toMilli.den) := by
  unfold duration_cast_ms
  rw [if_neg (not_not.mpr hin)]
  split_ifs with h1 h2 h3
  · simp [h1.1, h1.2]
  · simp [h2]
  · simp [h3]
  · rfl

theorem truncation_bounds (p : Period) (count : Int) (hden : 0 < p.den) :
    (0 ≤ count →
      (count * p.toMilli.num).tdiv p.toMilli.den * p.den ≤ count * (p.num * 1000) ∧
      count * (p.num * 1000) < ((count * p.toMilli.num).tdiv p.toMilli.den + 1) * p.den) ∧
    (count ≤ 0 → msNotLess ((count * p.toMilli.num).tdiv p.toMilli.den) p count) ∧
    ((p.den : Int) ∣ count * (p.num * 1000) →
      (count * p.toMilli.num).tdiv p.toMilli.den * p.den = count * (p.num * 1000)) := by
  have hg : (0 : Int) < (Nat.gcd (p.num * 1000) p.den : Nat) := by
    exact_mod_cast Nat.gcd_pos_of_pos_right _ hden
  have hd : (0 : Int) < (p.toMilli.den : Nat) := by
    exact_mod_cast Period.toMilli_den_pos p hden
  have hn : (0 : Int) ≤ (p.toMilli.num : Nat) := Int.ofNat_nonneg _
  have e1 : ((p.toMilli.num : Nat) : Int) * (Nat.gcd (p.num * 1000) p.den : Nat)
      = (p.num : Int) * 1000 := by
    exact_mod_cast Period.toMilli_num_mul p
  have e2 : ((p.toMilli.den : Nat) : Int) * (Nat.gcd (p.num * 1000) p.den : Nat)
      = (p.den : Int) := by
    exact_mod_cast Period.toMilli_den_mul p
  generalize (Nat.gcd (p.num * 1000) p.den : Int) = g at hg e1 e2
  generalize ((p.toMilli.num : Nat) : Int) = n at hn e1
  generalize ((p.toMilli.den : Nat) : Int) = d at hd e2
  rw [← e1, ← e2]
  refine ⟨?_, ?_, ?_⟩
  · intro hc
    have hx : 0 ≤ count * n := mul_nonneg hc hn
    obtain ⟨h1, h2⟩ := tdiv_mul_le_of_nonneg hx hd
    constructor
    · calc (count * n).tdiv d * (d * g) = ((count * n).tdiv d * d) * g := by ring
        _ ≤ (count * n) * g := mul_le_mul_of_nonneg_right h1 (le_of_lt hg)
        _ = count * (n * g) := by ring
    · calc count * (n * g) = (count * n) * g := by ring
        _ < (((count * n).tdiv d + 1) * d) * g := mul_lt_mul_of_pos_right h2 hg
        _ = ((count * n).tdiv d + 1) * (d * g) := by ring
  · intro hc
    have hx : count * n ≤ 0 := mul_nonpos_of_nonpos_of_nonneg hc hn
    have h1 := le_tdiv_mul_of_nonpos hx hd
    unfold msNotLess
    rw [← e1, ← e2]
    calc count * (n * g) = (count * n) * g := by ring
      _ ≤ ((count * n).tdiv d * d) * g := mul_le_mul_of_nonneg_right h1 (le_of_lt hg)
      _ = (count * n).tdiv d * (d * g) := by ring
  · intro hdvd
    have hdvd2 : d ∣ count * n := by
      have h3 : d * g ∣ (count * n) * g := by
        have h4 : (count * n) * g = count * (n * g) := by ring
        rw [h4]; exact hdvd
      exact (mul_dvd_mul_iff_right (ne_of_gt hg)).mp h3
    calc (count * n).tdiv d * (d * g) = ((count * n).tdiv d * d) * g := by ring
      _ = (count * n) * g := by rw [Int.tdiv_mul_cancel hdvd2]
      _ = count * (n * g) := by ring

end Chrono

namespace Io

open Polling Async Chrono

/-- C4, as stated, fails: a timeout of 1500 microseconds is handed to
`armTimerMs` as 1 millisecond, which is less than the requested timeout. -/
theorem Service.armTimer_micro_falls_short :
    Service.armTimer (fun value _ _ => value) Period.micro 1500 ⟨0⟩ ⟨0⟩ = some 1 ∧
    ¬ msNotLess 1 Period.micro 1500 := by
  decide

/-- C4, amended: for a timeout of `timeout` ticks of any period, the count held
in a signed 64-bit integer and the conversion free of overflow, `armTimer` hands
to `armTimerMs` the timeout truncated toward zero to whole milliseconds. For a
non-negative timeout the armed value is at most the request and less than one
millisecond below it. The armed value is no less than the request exactly when
the timeout is not positive or is a whole number of milliseconds; a timeout
that is a whole number of milliseconds is armed exactly, which is always the
case when the tick period itself is a whole number of milliseconds, and for a
timeout given in milliseconds the armed value is the count itself. -/
theorem Service.armTimer_truncates {ρ : Type} (armTimerMs : Int → Resolver → Rejection → ρ)
    (p : Period) (timeout : Int) (resolve : Resolver) (reject : Rejection)
    (hden : 0 < p.den) (hin : inInt64 timeout) (hmul : inInt64 (timeout * p.toMilli.num)) :
    ∃ value : Int,
      Service.armTimer armTimerMs p timeout resolve reject
        = some (armTimerMs value resolve reject) ∧
      value = (timeout * p.toMilli.num).tdiv p.toMilli.den ∧
      (0 ≤ timeout →
        value * p.den ≤ timeout * (p.num * 1000) ∧
        timeout * (p.num * 1000) < (value + 1) * p.den) ∧
      (msNotLess value p timeout ↔
        timeout ≤ 0 ∨ (p.den : Int) ∣ timeout * (p.num * 1000)) ∧
      (timeout ≤ 0 → msNotLess value p timeout) ∧
      ((p.den : Int) ∣ timeout * (p.num * 1000) →
        value * p.den = timeout * (p.num * 1000) ∧ msNotLess value p timeout) ∧
      (p.den ∣ p.num * 1000 →
        value * p.den = timeout * (p.num * 1000) ∧ msNotLess value p timeout) ∧
      (p = Period.milli → value = timeout) := by
  refine ⟨(timeout * p.toMilli.num).tdiv p.toMilli.den, ?_, rfl, ?_, ?_, ?_, ?_, ?_, ?_⟩
  · unfold Service.armTimer
    rw [duration_cast_ms_eq p timeout hin hmul]
  · exact (truncation_bounds p timeout hden).1
  · constructor
    · intro hge
      by_cases hpos : timeout ≤ 0
      · exact Or.inl hpos
      · right
        have hle := ((truncation_bounds p timeout hden).1 (by omega)).1
        unfold msNotLess at hge
        exact Dvd.intro_left _ (le_antisymm hle hge)
    · rintro (hpos | hdvd)
      · exact (truncation_bounds p timeout hden).2.1 hpos
      · have h := (truncation_bounds p timeout hden).2.2 hdvd
        unfold msNotLess; rw [h]
  · exact (truncation_bounds p timeout hden).2.1
  · intro hdvd
    have h := (truncation_bounds p timeout hden).2.2 hdvd
    exact ⟨h, by unfold msNotLess; rw [h]⟩
  · intro hunit
    have hdvd : (p.den : Int) ∣ timeout * (p.num * 1000) := by
      have h0 : (p.den : Int) ∣ ((p.num * 1000 : Nat) : Int) := Int.natCast_dvd_natCast.mpr hunit
      have h1 : ((p.num * 1000 : Nat) : Int) = (p.num : Int) * 1000 := by push_cast; ring
      rw [h1] at h0
      exact Dvd.dvd.mul_left h0 timeout
    have h := (truncation_bounds p timeout hden).2.2 hdvd
    exact ⟨h, by unfold msNotLess; rw [h]⟩
  · intro hp
    subst hp
    have h1 : Period.milli.toMilli.num = 1 := by decide
    have h2 : Period.milli.toMilli.den = 1 := by decide
    rw [h1, h2]
    simp

theorem Service.armTimer_truncates_witness :
    ∃ value : Int,
      Service.armTimer (fun v _ _ => v) ⟨3, 2000⟩ 5 ⟨0⟩ ⟨0⟩
        = some ((fun v _ _ => v) value (⟨0⟩ : Resolver) (⟨0⟩ : Rejection)) ∧
      value = ((5 : Int) * (⟨3, 2000⟩ : Period).toMilli.num).tdiv
        (⟨3, 2000⟩ : Period).toMilli.den ∧
      ((0 : Int) ≤ 5 →
        value * (⟨3, 2000⟩ : Period).den ≤ 5 * ((⟨3, 2000⟩ : Period).num * 1000) ∧
        5 * ((⟨3, 2000⟩ : Period).num * 1000) < (value + 1) * (⟨3, 2000⟩ : Period).den) ∧
      (msNotLess value ⟨3, 2000⟩ 5 ↔
        (5 : Int) ≤ 0 ∨
          ((⟨3, 2000⟩ : Period).den : Int) ∣ 5 * ((⟨3, 2000⟩ : Period).num * 1000)) ∧
      ((5 : Int) ≤ 0 → msNotLess value ⟨3, 2000⟩ 5) ∧
      (((⟨3, 2000⟩ : Period).den : Int) ∣ 5 * ((⟨3, 2000⟩ : Period).num * 1000) →
        value * (⟨3, 2000⟩ : Period).den = 5 * ((⟨3, 2000⟩ : Period).num * 1000) ∧
        msNotLess value ⟨3, 2000⟩ 5) ∧
      ((⟨3, 2000⟩ : Period).den ∣ (⟨3, 2000⟩ : Period).num * 1000 →
        value * (⟨3, 2000⟩ : Period).den = 5 * ((⟨3, 2000⟩ : Period).num * 1000) ∧
        msNotLess value ⟨3, 2000⟩ 5) ∧
      ((⟨3, 2000⟩ : Period) = Period.milli → value = 5) :=
  Service.armTimer_truncates (fun v _ _ => v) ⟨3, 2000⟩ 5 ⟨0⟩ ⟨0⟩
    (by decide) (by decide) (by decide)

theorem Store.get?_append_pending (store : Store) :
    (store ++ [State.Pending]).get? store.length = some State.Pending := by
  simp [List.get?_eq_getElem?]

theorem Store.get?_append_of_lt (store : Store) (x : State) (core : Nat)
    (h : core < store.length) : (store ++ [x]).get? core = store.get? core := by
  simp [List.get?_eq_getElem?, List.getElem?_append_left h]

/-- C8: a call to `load()` stores the holder of the new promise in `load_`,
signals the notifier exactly once, returns a promise that is new and still
pending, changes the state of no existing promise, and leaves the pending timer,
the handler, the timer descriptor and every other member as they were. -/
theorem Service.load_posts_request (s : Service) (store : Store) :
    (s.load store).service.load_ = some (s.load store).promise.holder ∧
    (s.load store).service.notifier.signals = s.notifier.signals + 1 ∧
    (s.load store).service.notifier.event_fd = s.notifier.event_fd ∧
    (s.load store).promise.state (s.load store).store = some State.Pending ∧
    (s.load store).promise.state store = none ∧
    (∀ core, core < store.length → (s.load store).store.get? core = store.get? core) ∧
    (s.load store).store.length = store.length + 1 ∧
    (s.load store).service.timer = s.timer ∧
    (s.load store).service.handler_ = s.handler_ ∧
    (s.load store).service.timerFd = s.timerFd ∧
    (s.load store).service.thisId = s.thisId ∧
    (s.load store).service.mailbox = s.mailbox ∧
    (s.load store).service.poller = s.poller := by
  refine ⟨rfl, rfl, rfl, ?_, ?_, ?_, ?_, rfl, rfl, rfl, rfl, rfl, rfl⟩
  · exact Store.get?_append_pending store
  · simp [Service.load, Promise.create, Promise.state, List.get?_eq_getElem?]
  · intro core h
    exact Store.get?_append_of_lt store _ core h
  · simp [Service.load, Promise.create]

/-- C3, as stated, fails: after two calls to `load()` with no servicing in
between, the reactor does not keep the holder of the first promise. -/
theorem Service.load_twice_loses_first :
    ¬ (((⟨[], 5, 1, some 0, none, none, ⟨6, 0⟩, []⟩ : Service).load []).promise.holder ∈
          ((((⟨[], 5, 1, some 0, none, none, ⟨6, 0⟩, []⟩ : Service).load []).service.load
            ((⟨[], 5, 1, some 0, none, none, ⟨6, 0⟩, []⟩ : Service).load []).store).service.pendingLoads) ∧
        ((((⟨[], 5, 1, some 0, none, none, ⟨6, 0⟩, []⟩ : Service).load []).service.load
            ((⟨[], 5, 1, some 0, none, none, ⟨6, 0⟩, []⟩ : Service).load []).store).promise.holder ∈
          ((((⟨[], 5, 1, some 0, none, none, ⟨6, 0⟩, []⟩ : Service).load []).service.load
            ((⟨[], 5, 1, some 0, none, none, ⟨6, 0⟩, []⟩ : Service).load []).store).service.pendingLoads))) := by
  decide

/-- C3, amended: for any two calls to `load()` with no servicing of the notifier
in between, the single `load_` slot of the reactor holds the holder of the
second promise only: the second call overwrites the holder of the first, which
the reactor no longer keeps. The two promises are distinct and both still
pending, and the notifier has been signalled once per call. -/
theorem Service.load_twice_keeps_second (s : Service) (store : Store) :
    ((s.load store).service.load (s.load store).store).service.load_
      = some ((s.load store).service.load (s.load store).store).promise.holder ∧
    ((s.load store).service.load (s.load store).store).service.pendingLoads
      = [((s.load store).service.load (s.load store).store).promise.holder] ∧
    (s.load store).promise.holder ∉
      ((s.load store).service.load (s.load store).store).service.pendingLoads ∧
    (s.load store).promise ≠ ((s.load store).service.load (s.load store).store).promise ∧
    (s.load store).promise.state ((s.load store).service.load (s.load store).store).store
      = some State.Pending ∧
    ((s.load store).service.load (s.load store).store).promise.state
        ((s.load store).service.load (s.load store).store).store = some State.Pending ∧
    ((s.load store).service.load (s.load store).store).service.notifier.signals
      = s.notifier.signals + 2 := by
  refine ⟨rfl, rfl, ?_, ?_, ?_, ?_, rfl⟩
  · simp [Service.load, Promise.create, Service.pendingLoads, Promise.holder]
  · simp [Service.load, Promise.create]
  · have h := Store.get?_append_of_lt (store ++ [State.Pending]) State.Pending store.length
      (by simp)
    simp only [Service.load, Promise.create, Promise.state]
    rw [h]
    exact Store.get?_append_pending store
  · exact Store.get?_append_pending (store ++ [State.Pending])

theorem Rejection.call_pending (r : Rejection) (error : Error) (store : Store)
    (h : store.get? r.core = some State.Pending) :
    (r.call error store).get? r.core = some (State.Rejected error) := by
  have hlt : r.core < store.length := by
    by_contra hc
    rw [List.get?_eq_none.mpr (Nat.le_of_not_lt hc)] at h
    cases h
  unfold Rejection.call
  rw [if_pos h]
  simp [List.get?_eq_getElem?, hlt]

/-- C7: a reactor holds at most one pending timer, and when arming succeeds
while a timer is pending, the rejection callback of that timer is called with
`Superseded` before the new timer is installed (its promise, if pending, ends
rejected with `Superseded`), no error is reported, and afterwards the single
pending timer is the newly armed one. -/
theorem Service.armTimer_supersedes (s : Service) (store : Store) (p : Period)
    (timeout value : Int) (resolve : Resolver) (reject : Rejection) (old : Timer)
    (hold : s.timer = some old) (hcast : duration_cast_ms p timeout = some value) :
    s.pendingTimers.length ≤ 1 ∧
    ∃ r : ArmResult,
      Service.armTimer (Service.armTimerMs true s store) p timeout resolve reject = some r ∧
      r.calls = [Call.reject old.reject Error.Superseded,
        Call.installed ⟨value, resolve, reject⟩] ∧
      (store.get? old.reject.core = some State.Pending →
        r.store.get? old.reject.core = some (State.Rejected Error.Superseded)) ∧
      r.error = none ∧
      r.service.timer = some ⟨value, resolve, reject⟩ ∧
      r.service.pendingTimers = [⟨value, resolve, reject⟩] ∧
      r.service.pendingTimers.length ≤ 1 := by
  refine ⟨by simp [Service.pendingTimers, hold], ?_⟩
  refine ⟨Service.armTimerMs true s store value resolve reject, ?_, ?_, ?_, ?_, ?_, ?_, ?_⟩
  · simp [Service.armTimer, hcast]
  · simp [Service.armTimerMs, hold]
  · intro hp
    simp only [Service.armTimerMs, hold, if_true]
    exact Rejection.call_pending _ _ _ hp
  · simp [Service.armTimerMs, hold]
  · simp [Service.armTimerMs, hold]
  · simp [Service.armTimerMs, hold, Service.pendingTimers]
  · simp [Service.armTimerMs, hold, Service.pendingTimers]

theorem Service.armTimer_supersedes_witness :
    (⟨[], 5, 1, some 0, none, some ⟨250, ⟨0⟩, ⟨0⟩⟩, ⟨6, 0⟩, []⟩ : Service).pendingTimers.length ≤ 1 ∧
    ∃ r : ArmResult,
      Service.armTimer
        (Service.armTimerMs true ⟨[], 5, 1, some 0, none, some ⟨250, ⟨0⟩, ⟨0⟩⟩, ⟨6, 0⟩, []⟩
          [State.Pending, State.Pending])
        Period.seconds 2 ⟨1⟩ ⟨1⟩ = some r ∧
      r.calls = [Call.reject (⟨250, ⟨0⟩, ⟨0⟩⟩ : Timer).reject Error.Superseded,
        Call.installed ⟨2000, ⟨1⟩, ⟨1⟩⟩] ∧
      (([State.Pending, State.Pending] : Store).get? (⟨250, ⟨0⟩, ⟨0⟩⟩ : Timer).reject.core
          = some State.Pending →
        r.store.get? (⟨250, ⟨0⟩, ⟨0⟩⟩ : Timer).reject.core
          = some (State.Rejected Error.Superseded)) ∧
      r.error = none ∧
      r.service.timer = some ⟨2000, ⟨1⟩, ⟨1⟩⟩ ∧
      r.service.pendingTimers = [⟨2000, ⟨1⟩, ⟨1⟩⟩] ∧
      r.service.pendingTimers.length ≤ 1 :=
  Service.armTimer_supersedes ⟨[], 5, 1, some 0, none, some ⟨250, ⟨0⟩, ⟨0⟩⟩, ⟨6, 0⟩, []⟩
    [State.Pending, State.Pending] Period.seconds 2 2000 ⟨1⟩ ⟨1⟩ ⟨250, ⟨0⟩, ⟨0⟩⟩ rfl (by decide)

/-- C10: for every pool, `empty()` is true exactly when `size()` is 0, `size()`
is the number of workers the pool owns, and neither call changes the pool. -/
theorem ServiceGroup.empty_iff_size_zero (hash : Fd → Nat) (g : ServiceGroup) :
    (g.empty = true ↔ g.size = 0) ∧
    g.size = g.workers_.length ∧
    g.perform hash GroupOp.size = (GroupResult.count g.size, g) ∧
    g.perform hash GroupOp.empty = (GroupResult.flag g.empty, g) := by
  refine ⟨?_, rfl, rfl, rfl⟩
  unfold ServiceGroup.empty ServiceGroup.size
  cases g.workers_ <;> simp

/-- C6: for a pool of size P > 0 and a descriptor fd, `service(fd)` returns the
reactor held in the `service_` member of the worker at index `hash(fd) mod P`,
an index below P, so the returned reactor is one of the reactors the pool
owns; a second call gives the same reactor, the call leaves the pool as it was,
and any pool of the same size is routed to the worker at the same index, so the
choice of the index depends on fd and P only. -/
theorem ServiceGroup.service_deterministic (hash : Fd → Nat) (g : ServiceGroup) (fd : Fd)
    (hP : 0 < g.size) :
    ∃ (i : Nat) (hi : i < g.workers_.length),
      i = hash fd % g.size ∧ i < g.size ∧
      ServiceGroup.route hash fd g.size = some i ∧
      g.service hash fd = some (g.workers_.get ⟨i, hi⟩).service_ ∧
      (∃ w ∈ g.workers_, g.service hash fd = some w.service_) ∧
      g.perform hash (GroupOp.service fd)
        = (GroupResult.reactor (some (g.workers_.get ⟨i, hi⟩).service_), g) ∧
      (g.perform hash (GroupOp.service fd)).2.perform hash (GroupOp.service fd)
        = (GroupResult.reactor (some (g.workers_.get ⟨i, hi⟩).service_), g) ∧
      (∀ g2 : ServiceGroup, g2.size = g.size →
        ∃ hi2 : i < g2.workers_.length,
          g2.service hash fd = some (g2.workers_.get ⟨i, hi2⟩).service_) := by
  have hne : g.size ≠ 0 := Nat.pos_iff_ne_zero.mp hP
  have hlt : hash fd % g.size < g.workers_.length := Nat.mod_lt _ hP
  have hroute : ServiceGroup.route hash fd g.size = some (hash fd % g.size) := by
    simp [ServiceGroup.route, hne]
  have hsvc : g.service hash fd = some (g.workers_.get ⟨hash fd % g.size, hlt⟩).service_ := by
    simp [ServiceGroup.service, hroute, List.get?_eq_getElem?, List.getElem?_eq_getElem hlt,
      Worker.service]
  have hperf : g.perform hash (GroupOp.service fd)
      = (GroupResult.reactor (some (g.workers_.get ⟨hash fd % g.size, hlt⟩).service_), g) := by
    simp only [ServiceGroup.perform, hsvc]
  refine ⟨hash fd % g.size, hlt, rfl, Nat.mod_lt _ hP, hroute, hsvc, ?_, hperf, ?_, ?_⟩
  · exact ⟨g.workers_.get ⟨hash fd % g.size, hlt⟩, List.get_mem _ _ _, hsvc⟩
  · rw [hperf]
    exact hperf
  · intro g2 h2
    have hlt2 : hash fd % g.size < g2.workers_.length := by
      have : g2.workers_.length = g.size := h2
      rw [this]; exact Nat.mod_lt _ hP
    refine ⟨hlt2, ?_⟩
    simp [ServiceGroup.service, h2, hroute, List.get?_eq_getElem?,
      List.getElem?_eq_getElem hlt2, Worker.service]

theorem ServiceGroup.service_deterministic_witness :
    ∃ (i : Nat) (hi : i < (⟨[⟨none, ⟨10⟩⟩, ⟨none, ⟨11⟩⟩, ⟨none, ⟨12⟩⟩]⟩ : ServiceGroup).workers_.length),
      i = Int.natAbs 7 % (⟨[⟨none, ⟨10⟩⟩, ⟨none, ⟨11⟩⟩, ⟨none, ⟨12⟩⟩]⟩ : ServiceGroup).size ∧
      i < (⟨[⟨none, ⟨10⟩⟩, ⟨none, ⟨11⟩⟩, ⟨none, ⟨12⟩⟩]⟩ : ServiceGroup).size ∧
      ServiceGroup.route Int.natAbs 7 (⟨[⟨none, ⟨10⟩⟩, ⟨none, ⟨11⟩⟩, ⟨none, ⟨12⟩⟩]⟩ : ServiceGroup).size
        = some i ∧
      (⟨[⟨none, ⟨10⟩⟩, ⟨none, ⟨11⟩⟩, ⟨none, ⟨12⟩⟩]⟩ : ServiceGroup).service Int.natAbs 7
        = some ((⟨[⟨none, ⟨10⟩⟩, ⟨none, ⟨11⟩⟩, ⟨none, ⟨12⟩⟩]⟩ : ServiceGroup).workers_.get ⟨i, hi⟩).service_ ∧
      (∃ w ∈ (⟨[⟨none, ⟨10⟩⟩, ⟨none, ⟨11⟩⟩, ⟨none, ⟨12⟩⟩]⟩ : ServiceGroup).workers_,
        (⟨[⟨none, ⟨10⟩⟩, ⟨none, ⟨11⟩⟩, ⟨none, ⟨12⟩⟩]⟩ : ServiceGroup).service Int.natAbs 7
          = some w.service_) ∧
      (⟨[⟨none, ⟨10⟩⟩, ⟨none, ⟨11⟩⟩, ⟨none, ⟨12⟩⟩]⟩ : ServiceGroup).perform Int.natAbs
          (GroupOp.service 7)
        = (GroupResult.reactor (some ((⟨[⟨none, ⟨10⟩⟩, ⟨none, ⟨11⟩⟩, ⟨none, ⟨12⟩⟩]⟩ :
              ServiceGroup).workers_.get ⟨i, hi⟩).service_),
            ⟨[⟨none, ⟨10⟩⟩, ⟨none, ⟨11⟩⟩, ⟨none, ⟨12⟩⟩]⟩) ∧
      ((⟨[⟨none, ⟨10⟩⟩, ⟨none, ⟨11⟩⟩, ⟨none, ⟨12⟩⟩]⟩ : ServiceGroup).perform Int.natAbs
          (GroupOp.service 7)).2.perform Int.natAbs (GroupOp.service 7)
        = (GroupResult.reactor (some ((⟨[⟨none, ⟨10⟩⟩, ⟨none, ⟨11⟩⟩, ⟨none, ⟨12⟩⟩]⟩ :
              ServiceGroup).workers_.get ⟨i, hi⟩).service_),
            ⟨[⟨none, ⟨10⟩⟩, ⟨none, ⟨11⟩⟩, ⟨none, ⟨12⟩⟩]⟩) ∧
      (∀ g2 : ServiceGroup,
        g2.size = (⟨[⟨none, ⟨10⟩⟩, ⟨none, ⟨11⟩⟩, ⟨none, ⟨12⟩⟩]⟩ : ServiceGroup).size →
        ∃ hi2 : i < g2.workers_.length,
          g2.service Int.natAbs 7 = some (g2.workers_.get ⟨i, hi2⟩).service_) :=
  ServiceGroup.service_deterministic Int.natAbs ⟨[⟨none, ⟨10⟩⟩, ⟨none, ⟨11⟩⟩, ⟨none, ⟨12⟩⟩]⟩ 7
    (by decide)

end Io
